import Mathlib

/-!
Verification of the sqlite_migrator schema-migration engine.

The engine (`src/migration.rs`) is embedded shallowly: the SQLite connection
becomes a `Conn σ` (the persisted `user_version` counter plus an abstract
database state `σ`), and the effectful operations the engine performs through
rusqlite (executing a batch of SQL, the `PRAGMA foreign_key_check` query,
`PRAGMA user_version = v`) become oracles collected in an `Env σ`.  Every
engine function additionally returns the list of effect `Event`s it performed,
so that ordering and "nothing was touched" properties are statable.  A run
that ends in an error models the rolled-back transaction by returning the
original connection unchanged, mirroring the `rusqlite::Transaction` drop
semantics used by the source (`tx` is dropped on every `?`-propagated error
before `tx.commit()`).
-/

namespace SqliteMigrator

/-- Effect events performed against the store, in order. -/
inductive Event where
  | txBegin : Event
  | runBatch (sql : String) : Event
  | fkCheckRun : Event
  | runUpHook (i : Nat) : Event
  | runDownHook (i : Nat) : Event
  | writeVersion (v : Nat) : Event
  | commit : Event
deriving DecidableEq, Repr

/-- Schema version, in the context of Migrations (`SchemaVersion` in the
source; the `NonZeroUsize` payload becomes a plain `Nat`, nonzero by
construction in `db_version_to_schema`). -/
inductive SchemaVersion where
  | NoneSet : SchemaVersion
  | Inside (v : Nat) : SchemaVersion
  | Outside (v : Nat) : SchemaVersion
deriving DecidableEq, Repr

/-- Errors produced by the engine, one constructor per `bail!` / error-context
site in `src/migration.rs`. -/
inductive Err where
  | noMigrationDefined : Err
  | versionTooHigh (target vmax : SchemaVersion) : Err
  | tooFarAhead : Err
  | downNotDefined (i : Nat) : Err
  | sqlError (query : String) : Err
  | hookFailed : Err
  | fkViolation : Err
  | setVersionFailed : Err
  | unreachableDown : Err
  | unreachableMax : Err
deriving DecidableEq, Repr

end SqliteMigrator

namespace SqliteMigrator

/-- The `impl From<&SchemaVersion> for usize`: translate schema version to db
version. -/
def SchemaVersion.toUsize : SchemaVersion → Nat
  | .NoneSet => 0
  | .Inside v => v
  | .Outside v => v

/-- The `impl PartialOrd for SchemaVersion`: compare the two raw `usize`
translations.  (`partial_cmp` on `usize` is total, hence an `Ordering`.) -/
def sv_partial_cmp (a b : SchemaVersion) : Ordering :=
  compare a.toUsize b.toUsize

/-- Oracles for the effectful store operations the engine calls through
rusqlite.  `none` / `false` model the operation failing. -/
structure Env (σ : Type) where
  /-- `Transaction::execute_batch`: run a batch of SQL, `none` on error. -/
  execBatch : String → σ → Option σ
  /-- `PRAGMA foreign_key_check` returned at least one violation row. -/
  fkViolation : σ → Bool
  /-- whether `PRAGMA user_version = v` (`set_user_version`) succeeds. -/
  setVersionOk : Nat → σ → Bool

/-- One migration step (struct `M` in the source).  Hooks
(`Fn(&Transaction) -> Result<()>`) become state transformers that may fail. -/
structure M (σ : Type) where
  up : String
  up_hook : Option (σ → Option σ)
  down : Option String
  down_hook : Option (σ → Option σ)
  foreign_key_check : Bool
  comment : Option String

/-- `M::up`: a new migration step with only the forward script set. -/
def Mup {σ : Type} (sql : String) : M σ :=
  { up := sql, up_hook := none, down := none, down_hook := none,
    foreign_key_check := false, comment := none }

/-- `M::comment` builder. -/
def M.withComment {σ : Type} (m : M σ) (c : String) : M σ :=
  { m with comment := some c }

/-- `M::down` builder. -/
def M.withDown {σ : Type} (m : M σ) (sql : String) : M σ :=
  { m with down := some sql }

/-- `MigrationFile` from `src/loader.rs` (the filesystem fields only). -/
structure MigrationFile where
  id : Nat
  name : String
  up : String
  down : Option String

/-- The `impl From<&MigrationFile> for M`:
`M::up(value.up).comment(value.name).down(value.down.unwrap_or_default())`. -/
def M.fromMigrationFile {σ : Type} (f : MigrationFile) : M σ :=
  ((Mup f.up).withComment f.name).withDown (f.down.getD "")

/-- The default step used to total the partial `self.ms[v]` indexing; under
the bounds the engine guarantees it is never selected. -/
def defaultM {σ : Type} : M σ := Mup ""

/-- Indexing `self.ms[v]` of the source, totalized with the default step;
the engine only ever uses in-bounds indices. -/
def getM {σ : Type} (ms : List (M σ)) (i : Nat) : M σ := ms.getD i defaultM

/-- The connection: the persisted `user_version` counter plus the abstract
database state. -/
structure Conn (σ : Type) where
  user_version : Nat
  db : σ
deriving DecidableEq, Repr

/-- `Migrations::db_version_to_schema`. -/
def db_version_to_schema {σ : Type} (ms : List (M σ)) (db_version : Nat) : SchemaVersion :=
  if db_version = 0 then .NoneSet
  else if 0 < db_version ∧ db_version ≤ ms.length then .Inside db_version
  else .Outside db_version

/-- `Migrations::max_schema_version`. -/
def max_schema_version {σ : Type} (ms : List (M σ)) : SchemaVersion :=
  match ms.length with
  | 0 => .NoneSet
  | v + 1 => .Inside (v + 1)

/-- `Migrations::current_version`. -/
def current_version {σ : Type} (ms : List (M σ)) (conn : Conn σ) : SchemaVersion :=
  db_version_to_schema ms conn.user_version

/-- Body of the `goto_up` loop for one step index `i`: execute the forward
script as a batch, run the foreign-key check if requested, then the forward
hook if present, each failure aborting. -/
def stepUp {σ : Type} (env : Env σ) (m : M σ) (i : Nat) (db : σ) :
    Except Err σ × List Event :=
  match env.execBatch m.up db with
  | none => (.error (.sqlError m.up), [.runBatch m.up])
  | some db1 =>
    if m.foreign_key_check then
      if env.fkViolation db1 then
        (.error .fkViolation, [.runBatch m.up, .fkCheckRun])
      else
        match m.up_hook with
        | none => (.ok db1, [.runBatch m.up, .fkCheckRun])
        | some h =>
          match h db1 with
          | none => (.error .hookFailed, [.runBatch m.up, .fkCheckRun, .runUpHook i])
          | some db2 => (.ok db2, [.runBatch m.up, .fkCheckRun, .runUpHook i])
    else
      match m.up_hook with
      | none => (.ok db1, [.runBatch m.up])
      | some h =>
        match h db1 with
        | none => (.error .hookFailed, [.runBatch m.up, .runUpHook i])
        | some db2 => (.ok db2, [.runBatch m.up, .runUpHook i])

/-- Body of the `goto_down` loop for one step index `i`: if the reverse hook
is present invoke it first, then execute the reverse script as a batch; the
`None` arm is the source's `unreachable!()`. -/
def stepDown {σ : Type} (env : Env σ) (m : M σ) (i : Nat) (db : σ) :
    Except Err σ × List Event :=
  match m.down with
  | some down =>
    match m.down_hook with
    | some h =>
      match h db with
      | none => (.error .hookFailed, [.runDownHook i])
      | some db1 =>
        match env.execBatch down db1 with
        | none => (.error (.sqlError down), [.runDownHook i, .runBatch down])
        | some db2 => (.ok db2, [.runDownHook i, .runBatch down])
    | none =>
      match env.execBatch down db with
      | none => (.error (.sqlError down), [.runBatch down])
      | some db1 => (.ok db1, [.runBatch down])
  | none => (.error .unreachableDown, [])

/-- Run a per-index step function over a list of indices, threading the
database state, stopping at the first error, and concatenating the emitted
events (the shape of both `for` loops in the source). -/
def runSteps {σ : Type} (step : Nat → σ → Except Err σ × List Event) :
    List Nat → σ → Except Err σ × List Event
  | [], db => (.ok db, [])
  | i :: rest, db =>
    match (step i db).1 with
    | .error e => (.error e, (step i db).2)
    | .ok db1 =>
      ((runSteps step rest db1).1, (step i db).2 ++ (runSteps step rest db1).2)

/-- `Migrations::goto_up`.  On any error the transaction is dropped, so the
connection is returned unchanged; on success `set_user_version` stores
`target as u32` (hence the `% 2 ^ 32`) and the transaction commits. -/
def goto_up {σ : Type} (env : Env σ) (ms : List (M σ)) (conn : Conn σ)
    (current target : Nat) : (Option Err × Conn σ) × List Event :=
  match (runSteps (fun i db => stepUp env (getM ms i) i db)
      (List.range' current (target - current)) conn.db).1 with
  | .error e =>
    ((some e, conn),
      Event.txBegin :: (runSteps (fun i db => stepUp env (getM ms i) i db)
        (List.range' current (target - current)) conn.db).2)
  | .ok db1 =>
    if env.setVersionOk target db1 then
      ((none, ⟨target % 2 ^ 32, db1⟩),
        Event.txBegin :: (runSteps (fun i db => stepUp env (getM ms i) i db)
          (List.range' current (target - current)) conn.db).2 ++
          [Event.writeVersion target, Event.commit])
    else
      ((some .setVersionFailed, conn),
        Event.txBegin :: (runSteps (fun i db => stepUp env (getM ms i) i db)
          (List.range' current (target - current)) conn.db).2 ++
          [Event.writeVersion target])

/-- The pre-flight scan of `goto_down`:
`ms.iter().enumerate().skip(target).take(current - target).find(|m| m.down.is_none())`. -/
def findNoDown {σ : Type} (ms : List (M σ)) (target current : Nat) :
    Option (Nat × M σ) :=
  ((ms.enum.drop target).take (current - target)).find?
    (fun p => p.2.down.isNone)

/-- `Migrations::goto_down`: pre-flight check first (before any transaction),
then the reverse loop over `(target..current).rev()`, then the version write
and commit. -/
def goto_down {σ : Type} (env : Env σ) (ms : List (M σ)) (conn : Conn σ)
    (current target : Nat) : (Option Err × Conn σ) × List Event :=
  match findNoDown ms target current with
  | some (i, _) => ((some (.downNotDefined i), conn), [])
  | none =>
    match (runSteps (fun i db => stepDown env (getM ms i) i db)
        ((List.range' target (current - target)).reverse) conn.db).1 with
    | .error e =>
      ((some e, conn),
        Event.txBegin :: (runSteps (fun i db => stepDown env (getM ms i) i db)
          ((List.range' target (current - target)).reverse) conn.db).2)
    | .ok db1 =>
      if env.setVersionOk target db1 then
        ((none, ⟨target % 2 ^ 32, db1⟩),
          Event.txBegin :: (runSteps (fun i db => stepDown env (getM ms i) i db)
            ((List.range' target (current - target)).reverse) conn.db).2 ++
            [Event.writeVersion target, Event.commit])
      else
        ((some .setVersionFailed, conn),
          Event.txBegin :: (runSteps (fun i db => stepDown env (getM ms i) i db)
            ((List.range' target (current - target)).reverse) conn.db).2 ++
            [Event.writeVersion target])

/-- `Migrations::goto`: dispatch on `target.cmp(&current)`. -/
def goto {σ : Type} (env : Env σ) (ms : List (M σ)) (conn : Conn σ)
    (target : Nat) : (Option Err × Conn σ) × List Event :=
  match compare target conn.user_version with
  | .lt =>
    if ms.length < conn.user_version then ((some .tooFarAhead, conn), [])
    else goto_down env ms conn conn.user_version target
  | .eq => ((none, conn), [])
  | .gt => goto_up env ms conn conn.user_version target

/-- `Migrations::to_latest`. -/
def to_latest {σ : Type} (env : Env σ) (ms : List (M σ)) (conn : Conn σ) :
    (Option Err × Conn σ) × List Event :=
  match max_schema_version ms with
  | .NoneSet => ((some .noMigrationDefined, conn), [])
  | .Inside v => goto env ms conn v
  | .Outside _ => ((some .unreachableMax, conn), [])

/-- `Migrations::to_version`. -/
def to_version {σ : Type} (env : Env σ) (ms : List (M σ)) (conn : Conn σ)
    (version : Nat) : (Option Err × Conn σ) × List Event :=
  let target_version := db_version_to_schema ms version
  match max_schema_version ms with
  | .NoneSet => ((some .noMigrationDefined, conn), [])
  | .Inside _ =>
    if sv_partial_cmp target_version (max_schema_version ms) = .gt then
      ((some (.versionTooHigh target_version (max_schema_version ms)), conn), [])
    else goto env ms conn target_version.toUsize
  | .Outside _ => ((some .unreachableMax, conn), [])

/-- The full event list of one successful forward step. -/
def stepUpEvents {σ : Type} (m : M σ) (i : Nat) : List Event :=
  Event.runBatch m.up ::
    (if m.foreign_key_check then [Event.fkCheckRun] else []) ++
    (match m.up_hook with | some _ => [Event.runUpHook i] | none => [])

/-- The full event list of one successful reverse step. -/
def stepDownEvents {σ : Type} (m : M σ) (i : Nat) : List Event :=
  (match m.down_hook with | some _ => [Event.runDownHook i] | none => []) ++
    [Event.runBatch (m.down.getD "")]

/-- Expected events of a fully successful forward loop over `idxs`. -/
def upEvents {σ : Type} (ms : List (M σ)) (idxs : List Nat) : List Event :=
  idxs.flatMap (fun i => stepUpEvents (getM ms i) i)

/-- Expected events of a fully successful reverse loop over `idxs`. -/
def downEvents {σ : Type} (ms : List (M σ)) (idxs : List Nat) : List Event :=
  idxs.flatMap (fun i => stepDownEvents (getM ms i) i)

/-- Events a transaction-control site emits; the loop bodies never do. -/
def Event.isCtrl : Event → Bool
  | .txBegin => true
  | .writeVersion _ => true
  | .commit => true
  | _ => false

/-- Concrete database state for sample runs: the executed batches, most
recent first. -/
abbrev LogDb := List String

/-- Sample environment in which every store operation succeeds. -/
def envOk : Env LogDb :=
  { execBatch := fun s db => some (s :: db),
    fkViolation := fun _ => false,
    setVersionOk := fun _ _ => true }

/-- Sample environment in which executing the batch "FAIL" errors. -/
def envFailOn : Env LogDb :=
  { execBatch := fun s db => if s = "FAIL" then none else some (s :: db),
    fkViolation := fun _ => false,
    setVersionOk := fun _ _ => true }

/-- Sample step 1: forward "u1", reverse "d1". -/
def mEx1 : M LogDb := (Mup "u1").withDown "d1"

/-- Sample step 2: forward "u2", reverse "d2". -/
def mEx2 : M LogDb := (Mup "u2").withDown "d2"

/-- Sample step 3: forward "u3", reverse "d3". -/
def mEx3 : M LogDb := (Mup "u3").withDown "d3"

/-- Sample two-step fully revertible sequence. -/
def msTwo : List (M LogDb) := [mEx1, mEx2]

/-- Sample three-step sequence whose second step has no reverse script. -/
def msBad : List (M LogDb) := [mEx1, Mup "u2", mEx3]

/-- Sample one-step sequence whose forward script fails under `envFailOn`. -/
def msFail : List (M LogDb) := [(Mup "FAIL").withDown "d0"]

/-- Sample loaded migration file with a down payload. -/
def fileA : MigrationFile := ⟨1, "0001-init", "u1", some "d1"⟩

/-- Sample loaded migration file without a down payload. -/
def fileB : MigrationFile := ⟨2, "0002-more", "u2", none⟩

/-- Sample sequence built from loaded migration files. -/
def msFiles : List (M LogDb) := [M.fromMigrationFile fileA, M.fromMigrationFile fileB]

end SqliteMigrator

namespace SqliteMigrator

/-- Classifying a raw version and translating back is the identity. -/
theorem toUsize_db_version_to_schema {σ : Type} (ms : List (M σ)) (t : Nat) :
    (db_version_to_schema ms t).toUsize = t := by
  unfold db_version_to_schema
  split_ifs with h1 h2 <;> simp [SchemaVersion.toUsize, *]

/-- A successful forward step emits exactly its full event list. -/
theorem stepUp_ok_events {σ : Type} (env : Env σ) (m : M σ) (i : Nat)
    (db db' : σ) (h : (stepUp env m i db).1 = .ok db') :
    (stepUp env m i db).2 = stepUpEvents m i := by
  unfold stepUp at h ⊢
  unfold stepUpEvents
  rcases hb : env.execBatch m.up db with _ | db1
  · simp_all
  · cases hfk : m.foreign_key_check
    · rcases hh : m.up_hook with _ | hk
      · simp_all
      · rcases hr : hk db1 with _ | db2
        · simp_all
        · simp_all
    · cases hv : env.fkViolation db1
      · rcases hh : m.up_hook with _ | hk
        · simp_all
        · rcases hr : hk db1 with _ | db2
          · simp_all
          · simp_all
      · simp_all

/-- Forward steps never emit transaction-control events. -/
theorem stepUp_no_ctrl {σ : Type} (env : Env σ) (m : M σ) (i : Nat) (db : σ) :
    ((stepUp env m i db).2.all fun ev => !ev.isCtrl) = true := by
  unfold stepUp
  rcases hb : env.execBatch m.up db with _ | db1
  · simp_all [Event.isCtrl]
  · cases hfk : m.foreign_key_check
    · rcases hh : m.up_hook with _ | hk
      · simp_all [Event.isCtrl]
      · rcases hr : hk db1 with _ | db2
        · simp_all [Event.isCtrl]
        · simp_all [Event.isCtrl]
    · cases hv : env.fkViolation db1
      · rcases hh : m.up_hook with _ | hk
        · simp_all [Event.isCtrl]
        · rcases hr : hk db1 with _ | db2
          · simp_all [Event.isCtrl]
          · simp_all [Event.isCtrl]
      · simp_all [Event.isCtrl]

/-- A successful reverse step emits exactly its full event list. -/
theorem stepDown_ok_events {σ : Type} (env : Env σ) (m : M σ) (i : Nat)
    (db db' : σ) (h : (stepDown env m i db).1 = .ok db') :
    (stepDown env m i db).2 = stepDownEvents m i := by
  unfold stepDown at h ⊢
  unfold stepDownEvents
  rcases hd : m.down with _ | d
  · simp_all
  · rcases hh : m.down_hook with _ | hk
    · rcases hb : env.execBatch d db with _ | db1
      · simp_all
      · simp_all
    · rcases hr : hk db with _ | db1
      · simp_all
      · rcases hb : env.execBatch d db1 with _ | db2
        · simp_all
        · simp_all

/-- Reverse steps never emit transaction-control events. -/
theorem stepDown_no_ctrl {σ : Type} (env : Env σ) (m : M σ) (i : Nat) (db : σ) :
    ((stepDown env m i db).2.all fun ev => !ev.isCtrl) = true := by
  unfold stepDown
  rcases hd : m.down with _ | d
  · simp_all [Event.isCtrl]
  · rcases hh : m.down_hook with _ | hk
    · rcases hb : env.execBatch d db with _ | db1
      · simp_all [Event.isCtrl]
      · simp_all [Event.isCtrl]
    · rcases hr : hk db with _ | db1
      · simp_all [Event.isCtrl]
      · rcases hb : env.execBatch d db1 with _ | db2
        · simp_all [Event.isCtrl]
        · simp_all [Event.isCtrl]

/-- A reverse step on a step that does have a reverse script can only fail
with a hook failure or a script failure, never the unreachable marker. -/
theorem stepDown_some_down_error {σ : Type} (env : Env σ) (m : M σ) (i : Nat)
    (db : σ) (hs : (m.down).isSome = true) (e : Err)
    (h : (stepDown env m i db).1 = .error e) :
    e = .hookFailed ∨ ∃ q, e = .sqlError q := by
  unfold stepDown at h
  rcases hd : m.down with _ | d
  · simp_all
  · rcases hh : m.down_hook with _ | hk
    · rcases hb : env.execBatch d db with _ | db1
      · simp_all
        exact Or.inr ⟨d, h.symm⟩
      · simp_all
    · rcases hr : hk db with _ | db1
      · simp_all
      · rcases hb : env.execBatch d db1 with _ | db2
        · simp_all
          exact Or.inr ⟨d, h.symm⟩
        · simp_all

/-- A fully successful loop emits the concatenation of the per-step event
lists, in index order. -/
theorem runSteps_ok_events {σ : Type} (step : Nat → σ → Except Err σ × List Event)
    (stepEvs : Nat → List Event)
    (hstep : ∀ i db db', (step i db).1 = .ok db' → (step i db).2 = stepEvs i) :
    ∀ (idxs : List Nat) (db db' : σ), (runSteps step idxs db).1 = .ok db' →
      (runSteps step idxs db).2 = idxs.flatMap stepEvs := by
  intro idxs
  induction idxs with
  | nil => intro db db' _; simp [runSteps]
  | cons i rest ih =>
    intro db db' h
    simp only [runSteps] at h ⊢
    rcases hs : (step i db).1 with e | db1
    · simp [hs] at h
    · simp only [List.flatMap_cons]
      simp [hs] at h ⊢
      rw [hstep i db db1 hs, ih db1 db' h]

/-- The loop never emits transaction-control events (its bodies do not). -/
theorem runSteps_no_ctrl {σ : Type} (step : Nat → σ → Except Err σ × List Event)
    (hstep : ∀ i db, ((step i db).2.all fun ev => !ev.isCtrl) = true) :
    ∀ (idxs : List Nat) (db : σ),
      ((runSteps step idxs db).2.all fun ev => !ev.isCtrl) = true := by
  intro idxs
  induction idxs with
  | nil => intro db; rfl
  | cons i rest ih =>
    intro db
    simp only [runSteps]
    rcases hs : (step i db).1 with e | db1
    · have h1 := hstep i db
      simp_all
    · have h1 := hstep i db
      have h2 := ih db1
      simp_all [List.all_append]

/-- A failing loop fails inside the body of one of its indices. -/
theorem runSteps_error_mem {σ : Type} (step : Nat → σ → Except Err σ × List Event) :
    ∀ (idxs : List Nat) (db : σ) (e : Err), (runSteps step idxs db).1 = .error e →
      ∃ i ∈ idxs, ∃ db1, (step i db1).1 = .error e := by
  intro idxs
  induction idxs with
  | nil => intro db e h; simp [runSteps] at h
  | cons i rest ih =>
    intro db e h
    simp only [runSteps] at h
    rcases hs : (step i db).1 with e' | db1
    · simp [hs] at h
      exact ⟨i, by simp, db, by rw [hs, h]⟩
    · simp [hs] at h
      rcases ih db1 e h with ⟨j, hj, db2, hj2⟩
      exact ⟨j, by simp [hj], db2, hj2⟩

/-- Every failing `goto_up` returns the original connection: all error paths
precede the commit. -/
theorem goto_up_error_conn {σ : Type} (env : Env σ) (ms : List (M σ))
    (conn : Conn σ) (current target : Nat) (e : Err)
    (h : (goto_up env ms conn current target).1.1 = some e) :
    (goto_up env ms conn current target).1.2 = conn := by
  unfold goto_up at h ⊢
  rcases hs : (runSteps (fun i db => stepUp env (getM ms i) i db)
      (List.range' current (target - current)) conn.db).1 with e' | db1
  · rw [hs] at h
    try rw [hs]
    try simp
  · rw [hs] at h
    try rw [hs]
    simp at h
    by_cases hv : env.setVersionOk target db1
    · simp [hv] at h
    · simp [hv]

/-- Every failing `goto_down` returns the original connection: all error
paths precede the commit. -/
theorem goto_down_error_conn {σ : Type} (env : Env σ) (ms : List (M σ))
    (conn : Conn σ) (current target : Nat) (e : Err)
    (h : (goto_down env ms conn current target).1.1 = some e) :
    (goto_down env ms conn current target).1.2 = conn := by
  unfold goto_down at h ⊢
  rcases hf : findNoDown ms target current with _ | p
  · rw [hf] at h
    try rw [hf]
    rcases hs : (runSteps (fun i db => stepDown env (getM ms i) i db)
        ((List.range' target (current - target)).reverse) conn.db).1 with e' | db1
    · rw [hs] at h
      try rw [hs]
      try simp
    · rw [hs] at h
      try rw [hs]
      simp at h
      by_cases hv : env.setVersionOk target db1
      · simp [hv] at h
      · simp [hv]
  · rcases p with ⟨i, m⟩
    rw [hf] at h
    try rw [hf]
    try simp

/-- C1: if any step of a migration run (upward or downward) fails — script
failure, hook failure, consistency-check violation or version-counter write
failure — `goto` returns the connection unchanged, so the persisted version
counter after the call equals the one before the call: the transaction is
rolled back before the error is returned. -/
theorem goto_error_rollback {σ : Type} (env : Env σ) (ms : List (M σ))
    (conn : Conn σ) (target : Nat) (e : Err)
    (h : (goto env ms conn target).1.1 = some e) :
    (goto env ms conn target).1.2 = conn ∧
      ((goto env ms conn target).1.2).user_version = conn.user_version := by
  have hc : (goto env ms conn target).1.2 = conn := by
    unfold goto at h ⊢
    rcases hcmp : compare target conn.user_version with _ | _ | _
    · simp [hcmp] at h ⊢
      by_cases hlen : ms.length < conn.user_version
      · simp [hlen] at h ⊢
      · simp [hlen] at h ⊢
        exact goto_down_error_conn env ms conn conn.user_version target e h
    · simp [hcmp] at h
    · simp [hcmp] at h ⊢
      exact goto_up_error_conn env ms conn conn.user_version target e h
  exact ⟨hc, by rw [hc]⟩

/-- Witness for C1: a one-step upward run whose forward script fails leaves
the connection, and in particular the version counter, unchanged. -/
theorem goto_error_rollback_witness :
    (goto envFailOn msFail ⟨0, ([] : LogDb)⟩ 1).1.2 = (⟨0, []⟩ : Conn LogDb) ∧
      ((goto envFailOn msFail ⟨0, ([] : LogDb)⟩ 1).1.2).user_version =
        (⟨0, ([] : LogDb)⟩ : Conn LogDb).user_version :=
  goto_error_rollback envFailOn msFail ⟨0, []⟩ 1 (.sqlError "FAIL") rfl

/-- C3: when the target equals the current persisted version, `goto` is a
no-op success with no transaction and no events; consequently `to_latest`
when the current version already equals the sequence length, and
`to_version` at the current in-range version, are no-op successes. -/
theorem goto_noop_when_equal {σ : Type} (env : Env σ) (ms : List (M σ))
    (conn : Conn σ) (target : Nat) (h : conn.user_version = target) :
    goto env ms conn target = ((none, conn), []) ∧
      (ms ≠ [] → conn.user_version = ms.length →
        to_latest env ms conn = ((none, conn), [])) ∧
      (ms ≠ [] → target ≤ ms.length →
        to_version env ms conn target = ((none, conn), [])) := by
  have hgoto : ∀ t : Nat, conn.user_version = t →
      goto env ms conn t = ((none, conn), []) := by
    intro t ht
    have hc : compare t conn.user_version = .eq := by
      rw [ht]
      exact Nat.compare_eq_eq.mpr rfl
    unfold goto
    simp [hc]
  refine ⟨hgoto target h, ?_, ?_⟩
  · intro hne hlen
    rcases hl : ms.length with _ | n
    · exact absurd (List.length_eq_zero.mp hl) hne
    · unfold to_latest
      simp [max_schema_version, hl]
      exact hgoto (n + 1) (by rw [hlen, hl])
  · intro hne hle
    rcases hl : ms.length with _ | n
    · exact absurd (List.length_eq_zero.mp hl) hne
    · have h1 := toUsize_db_version_to_schema ms target
      have h2 : sv_partial_cmp (db_version_to_schema ms target)
          (.Inside (n + 1)) ≠ .gt := by
        unfold sv_partial_cmp
        rw [h1]
        simp only [SchemaVersion.toUsize]
        intro hgt
        have := Nat.compare_eq_gt.mp hgt
        omega
      unfold to_version
      simp [max_schema_version, hl, h2, h1]
      exact hgoto target h

/-- Witness for C3 at a two-step sequence whose store is already at the
latest version. -/
theorem goto_noop_when_equal_witness :
    goto envOk msTwo ⟨2, ([] : LogDb)⟩ 2 = ((none, ⟨2, []⟩), []) ∧
      (msTwo ≠ [] → (⟨2, ([] : LogDb)⟩ : Conn LogDb).user_version = msTwo.length →
        to_latest envOk msTwo ⟨2, []⟩ = ((none, ⟨2, []⟩), [])) ∧
      (msTwo ≠ [] → 2 ≤ msTwo.length →
        to_version envOk msTwo ⟨2, []⟩ 2 = ((none, ⟨2, []⟩), [])) :=
  goto_noop_when_equal envOk msTwo ⟨2, []⟩ 2 rfl

/-- C4: requesting a raw version beyond a non-empty sequence is classified
`Outside` and rejected by `to_version` with an error naming both versions,
leaving the store untouched (no transaction, no events, no clamping). -/
theorem to_version_outside_rejected {σ : Type} (env : Env σ) (ms : List (M σ))
    (conn : Conn σ) (t : Nat) (hne : ms ≠ []) (hgt : ms.length < t) :
    db_version_to_schema ms t = .Outside t ∧
      to_version env ms conn t =
        ((some (.versionTooHigh (.Outside t) (.Inside ms.length)), conn), []) := by
  have hcl : db_version_to_schema ms t = .Outside t := by
    unfold db_version_to_schema
    rw [if_neg (by omega), if_neg (by omega)]
  refine ⟨hcl, ?_⟩
  rcases hl : ms.length with _ | n
  · exact absurd (List.length_eq_zero.mp hl) hne
  · have hcond : sv_partial_cmp (SchemaVersion.Outside t) (.Inside (n + 1)) = .gt := by
      unfold sv_partial_cmp
      simp only [SchemaVersion.toUsize]
      exact Nat.compare_eq_gt.mpr (by omega)
    unfold to_version
    simp [max_schema_version, hl, hcl, hcond]

/-- Witness for C4: `to_version 5` against a two-step sequence. -/
theorem to_version_outside_rejected_witness :
    db_version_to_schema msTwo 5 = .Outside 5 ∧
      to_version envOk msTwo ⟨0, ([] : LogDb)⟩ 5 =
        ((some (.versionTooHigh (.Outside 5) (.Inside msTwo.length)), ⟨0, []⟩), []) :=
  to_version_outside_rejected envOk msTwo ⟨0, []⟩ 5 (by simp [msTwo]) (by decide)

/-- C5: a downward request while the persisted version lies beyond the known
sequence fails with the "too far ahead" error before any transaction, with
the store unchanged. -/
theorem goto_too_far_ahead {σ : Type} (env : Env σ) (ms : List (M σ))
    (conn : Conn σ) (target : Nat) (hlt : target < conn.user_version)
    (hout : ms.length < conn.user_version) :
    goto env ms conn target = ((some .tooFarAhead, conn), []) := by
  have hc : compare target conn.user_version = .lt := Nat.compare_eq_lt.mpr hlt
  unfold goto
  simp [hc, hout]

/-- Witness for C5: reverting from version 5 with only two known steps. -/
theorem goto_too_far_ahead_witness :
    goto envOk msTwo ⟨5, ([] : LogDb)⟩ 1 = ((some .tooFarAhead, ⟨5, []⟩), []) :=
  goto_too_far_ahead envOk msTwo ⟨5, []⟩ 1 (by decide) (by decide)

/-- C8: `db_version_to_schema` maps 0 to NoneSet, 1..N to Inside, above N to
Outside, and the `PartialOrd` on `SchemaVersion` is the numeric order of the
underlying raw integers with NoneSet counting as 0. -/
theorem schema_version_classification {σ : Type} (ms : List (M σ)) (v : Nat)
    (a b : SchemaVersion) :
    (v = 0 → db_version_to_schema ms v = .NoneSet) ∧
      (1 ≤ v → v ≤ ms.length → db_version_to_schema ms v = .Inside v) ∧
      (ms.length < v → db_version_to_schema ms v = .Outside v) ∧
      (sv_partial_cmp a b = .lt ↔ a.toUsize < b.toUsize) ∧
      (sv_partial_cmp a b = .eq ↔ a.toUsize = b.toUsize) ∧
      (sv_partial_cmp a b = .gt ↔ b.toUsize < a.toUsize) ∧
      SchemaVersion.NoneSet.toUsize = 0 := by
  refine ⟨?_, ?_, ?_, ?_, ?_, ?_, rfl⟩
  · intro h
    simp [db_version_to_schema, h]
  · intro h1 h2
    unfold db_version_to_schema
    rw [if_neg (by omega), if_pos ⟨by omega, h2⟩]
  · intro h
    unfold db_version_to_schema
    rw [if_neg (by omega), if_neg (by omega)]
  · unfold sv_partial_cmp
    exact Nat.compare_eq_lt
  · unfold sv_partial_cmp
    exact Nat.compare_eq_eq
  · unfold sv_partial_cmp
    exact Nat.compare_eq_gt

/-- Witness for C8 at concrete versions. -/
theorem schema_version_classification_witness :
    (1 = 0 → db_version_to_schema msTwo 1 = .NoneSet) ∧
      (1 ≤ 1 → 1 ≤ msTwo.length → db_version_to_schema msTwo 1 = .Inside 1) ∧
      (msTwo.length < 1 → db_version_to_schema msTwo 1 = .Outside 1) ∧
      (sv_partial_cmp (.Inside 1) (.Outside 5) = .lt ↔
        (SchemaVersion.Inside 1).toUsize < (SchemaVersion.Outside 5).toUsize) ∧
      (sv_partial_cmp (.Inside 1) (.Outside 5) = .eq ↔
        (SchemaVersion.Inside 1).toUsize = (SchemaVersion.Outside 5).toUsize) ∧
      (sv_partial_cmp (.Inside 1) (.Outside 5) = .gt ↔
        (SchemaVersion.Outside 5).toUsize < (SchemaVersion.Inside 1).toUsize) ∧
      SchemaVersion.NoneSet.toUsize = 0 :=
  schema_version_classification msTwo 1 (.Inside 1) (.Outside 5)

/-- The elements scanned by the pre-flight check
`ms.iter().enumerate().skip(target).take(current - target)` are exactly the
pairs of an index in `[target, current)` (within bounds) and its step. -/
theorem mem_preflight_iff {σ : Type} (ms : List (M σ)) (target current : Nat)
    (p : Nat × M σ) :
    p ∈ (ms.enum.drop target).take (current - target) ↔
      target ≤ p.1 ∧ p.1 < current ∧ p.1 < ms.length ∧
        getM ms p.1 = p.2 := by
  constructor
  · intro hp
    rcases List.mem_iff_getElem?.mp hp with ⟨j, hj⟩
    rw [List.getElem?_take] at hj
    by_cases hjlt : j < current - target
    · rw [if_pos hjlt, List.getElem?_drop, List.getElem?_enum] at hj
      rcases Option.map_eq_some'.mp hj with ⟨a, ha, hpa⟩
      rcases List.getElem?_eq_some_iff.mp ha with ⟨hlen, hval⟩
      have h1 : p.1 = target + j := by rw [← hpa]
      have h2 : p.2 = a := by rw [← hpa]
      refine ⟨by omega, by omega, by omega, ?_⟩
      unfold getM
      rw [h1, h2, List.getD_eq_getElem?_getD, ha, ← hval]
      rfl
    · rw [if_neg hjlt] at hj
      cases hj
  · intro ⟨h1, h2, h3, h4⟩
    apply List.mem_iff_getElem?.mpr
    refine ⟨p.1 - target, ?_⟩
    rw [List.getElem?_take, if_pos (by omega), List.getElem?_drop,
      List.getElem?_enum]
    have heq : target + (p.1 - target) = p.1 := by omega
    rw [heq]
    have hget : ms[p.1]? = some (getM ms p.1) := by
      unfold getM
      rw [List.getD_eq_getElem?_getD]
      rcases hx : ms[p.1]? with _ | a
      · rw [List.getElem?_eq_none_iff] at hx
        omega
      · rfl
    rw [hget, h4]
    simp

/-- C2: a downward transition over a range containing a step with no reverse
script fails during the pre-flight scan with an error identifying that
step's index; no transaction is opened (empty event trace) and the
connection, including the persisted version, is returned unmodified. -/
theorem goto_down_preflight {σ : Type} (env : Env σ) (ms : List (M σ))
    (conn : Conn σ) (target : Nat) (hlt : target < conn.user_version)
    (hle : conn.user_version ≤ ms.length)
    (hbad : ∃ i, target ≤ i ∧ i < conn.user_version ∧
      (getM ms i).down = none) :
    ∃ i, target ≤ i ∧ i < conn.user_version ∧ (getM ms i).down = none ∧
      goto env ms conn target = ((some (.downNotDefined i), conn), []) := by
  rcases hbad with ⟨i, hi1, hi2, hi3⟩
  have hmem : (i, getM ms i) ∈
      (ms.enum.drop target).take (conn.user_version - target) :=
    (mem_preflight_iff ms target conn.user_version _).mpr
      ⟨hi1, hi2, by omega, rfl⟩
  have hsome : (((ms.enum.drop target).take (conn.user_version - target)).find?
      (fun p => p.2.down.isNone)).isSome := by
    apply List.find?_isSome.mpr
    exact ⟨_, hmem, by simp only [hi3, Option.isNone_none]⟩
  rcases Option.isSome_iff_exists.mp hsome with ⟨q, hq⟩
  have hqmem := List.mem_of_find?_eq_some hq
  have hqprop := List.find?_some hq
  rcases q with ⟨qi, qm⟩
  rcases (mem_preflight_iff ms target conn.user_version ⟨qi, qm⟩).mp hqmem with
    ⟨hq1, hq2, hq3, hq4⟩
  have hqdown : (getM ms qi).down = none := by
    rw [hq4]
    simpa using hqprop
  refine ⟨qi, hq1, hq2, hqdown, ?_⟩
  have hc : compare target conn.user_version = .lt := Nat.compare_eq_lt.mpr hlt
  have hnf : ¬ ms.length < conn.user_version := by omega
  have hfind : findNoDown ms target conn.user_version = some (qi, qm) := hq
  unfold goto
  simp only [hc]
  rw [if_neg hnf]
  unfold goto_down
  rw [hfind]

/-- Witness for C2: reverting a three-step sequence whose second step lacks
a reverse script mutates nothing. -/
theorem goto_down_preflight_witness :
    ∃ i, 0 ≤ i ∧ i < (⟨3, ([] : LogDb)⟩ : Conn LogDb).user_version ∧
      (getM msBad i).down = none ∧
      goto envOk msBad ⟨3, []⟩ 0 = ((some (.downNotDefined i), ⟨3, []⟩), []) :=
  goto_down_preflight envOk msBad ⟨3, []⟩ 0 (by decide) (by decide)
    ⟨1, by decide, by decide, rfl⟩

/-- C9: when the pre-flight scan found no step lacking a reverse script,
every step in the executed range does have one, and the `unreachable!()`
branch of the reverse loop can never be reached: `goto_down` can never
produce the error that branch models. -/
theorem goto_down_no_unreachable {σ : Type} (env : Env σ) (ms : List (M σ))
    (conn : Conn σ) (current target : Nat) (hle : current ≤ ms.length)
    (hpre : findNoDown ms target current = none) :
    (∀ i, target ≤ i → i < current → ((getM ms i).down).isSome = true) ∧
      ∀ e, (goto_down env ms conn current target).1.1 = some e →
        e ≠ .unreachableDown := by
  have hall : ∀ i, target ≤ i → i < current →
      ((getM ms i).down).isSome = true := by
    intro i h1 h2
    have hnone := List.find?_eq_none.mp hpre (i, getM ms i)
      ((mem_preflight_iff ms target current _).mpr ⟨h1, h2, by omega, rfl⟩)
    simp only [Option.isNone_iff_eq_none] at hnone
    rcases hx : (getM ms i).down with _ | d
    · exact absurd hx hnone
    · try rw [hx]
      rfl
  refine ⟨hall, ?_⟩
  intro e he heq
  subst heq
  unfold goto_down at he
  rw [hpre] at he
  rcases hs : (runSteps (fun i db => stepDown env (getM ms i) i db)
      ((List.range' target (current - target)).reverse) conn.db).1 with e' | db1
  · rw [hs] at he
    simp at he
    subst he
    rcases runSteps_error_mem _ _ _ _ hs with ⟨i, hi, db1, hstep⟩
    have hiB : target ≤ i ∧ i < target + (current - target) :=
      List.mem_range'_1.mp (List.mem_reverse.mp hi)
    have hdown := hall i hiB.1 (by omega)
    rcases stepDown_some_down_error env (getM ms i) i db1 hdown _ hstep with
      h | ⟨q, h⟩ <;> cases h
  · rw [hs] at he
    by_cases hv : env.setVersionOk target db1
    · simp [hv] at he
    · simp [hv] at he

/-- Witness for C9: a clean two-step revert has every reverse script present
and cannot produce the unreachable-branch error. -/
theorem goto_down_no_unreachable_witness :
    (∀ i, 0 ≤ i → i < 2 → ((getM msTwo i).down).isSome = true) ∧
      ∀ e, (goto_down envOk msTwo ⟨2, ([] : LogDb)⟩ 2 0).1.1 = some e →
        e ≠ .unreachableDown :=
  goto_down_no_unreachable envOk msTwo ⟨2, []⟩ 2 0 (by decide) rfl

/-- C10: converting a loaded `MigrationFile` into a step always sets the
reverse script — `Some` of the loaded down text or `Some ""` when none was
loaded, never `None` — so the downward pre-flight check can never find a
step lacking one in a sequence built from converted files. -/
theorem from_migration_file_down {σ : Type} :
    (∀ f : MigrationFile,
        (M.fromMigrationFile (σ := σ) f).down = some (f.down.getD "")) ∧
      ∀ (ms : List (M σ)) (target current : Nat),
        (∀ m ∈ ms, ∃ f : MigrationFile, m = M.fromMigrationFile f) →
        findNoDown ms target current = none := by
  constructor
  · intro f
    rfl
  · intro ms target current hms
    apply List.find?_eq_none.mpr
    intro p hp
    rcases (mem_preflight_iff ms target current p).mp hp with ⟨h1, h2, h3, h4⟩
    have hpm : p.2 ∈ ms := by
      rw [← h4]
      unfold getM
      rw [List.getD_eq_getElem?_getD]
      rcases hx : ms[p.1]? with _ | a
      · rw [List.getElem?_eq_none_iff] at hx
        omega
      · simpa using List.getElem?_mem hx
    rcases hms p.2 hpm with ⟨f, hf⟩
    simp [hf, M.fromMigrationFile, M.withDown]

/-- Witness for C10 on a sequence converted from files, one of which has no
down payload. -/
theorem from_migration_file_down_witness :
    findNoDown msFiles 0 2 = none :=
  (from_migration_file_down (σ := LogDb)).2 msFiles 0 2 (by
    intro m hm
    simp only [msFiles, List.mem_cons, List.mem_singleton, List.not_mem_nil,
      or_false] at hm
    rcases hm with h | h
    · exact ⟨fileA, h⟩
    · exact ⟨fileB, h⟩)

/-- A control event cannot occur in an all-non-control event list. -/
theorem no_ctrl_not_mem (evs : List Event)
    (hall : (evs.all fun ev => !ev.isCtrl) = true) (ev : Event)
    (hctrl : ev.isCtrl = true) : ev ∉ evs := by
  intro hmem
  have h := List.all_eq_true.mp hall ev hmem
  rw [hctrl] at h
  simp at h

/-- Order of effects inside one forward step: the script runs first and its
failure aborts; the validator runs after the script and a violation aborts;
the hook runs last and its failure aborts with the full step trace. -/
theorem stepUp_order_facts {σ : Type} (env : Env σ) (m : M σ) (i : Nat) (db : σ) :
    (env.execBatch m.up db = none →
        stepUp env m i db = (.error (.sqlError m.up), [.runBatch m.up])) ∧
      (∀ db1, env.execBatch m.up db = some db1 → m.foreign_key_check = true →
        env.fkViolation db1 = true →
        stepUp env m i db = (.error .fkViolation, [.runBatch m.up, .fkCheckRun])) ∧
      (∀ db1 hk, env.execBatch m.up db = some db1 →
        (m.foreign_key_check = true → env.fkViolation db1 = false) →
        m.up_hook = some hk → hk db1 = none →
        stepUp env m i db = (.error .hookFailed, stepUpEvents m i)) := by
  refine ⟨?_, ?_, ?_⟩
  · intro hb
    simp [stepUp, hb]
  · intro db1 hb hfk hv
    simp [stepUp, hb, hfk, hv]
  · intro db1 hk hb hfkv hh hr
    cases hfk : m.foreign_key_check
    · simp [stepUp, stepUpEvents, hb, hh, hr, hfk]
    · simp [stepUp, stepUpEvents, hb, hh, hr, hfk, hfkv hfk]

/-- In one reverse step the hook runs before the reverse script: when the
hook fails, the step aborts having emitted only the hook event. -/
theorem stepDown_hook_first {σ : Type} (env : Env σ) (m : M σ) (i : Nat)
    (db : σ) (s : String) (hk : σ → Option σ) (hd : m.down = some s)
    (hh : m.down_hook = some hk) (hr : hk db = none) :
    stepDown env m i db = (.error .hookFailed, [Event.runDownHook i]) := by
  simp [stepDown, hd, hh, hr]

/-- C6: an upward `goto` from the current version to `target` executes
exactly the steps with index in `[current, target)` in ascending order — per
step: the forward script as a batch, then (when `foreign_key_check`) the
validator failing the whole run on a violation, then (when present) the
forward hook propagating its failure — and writes the target version and
commits only after every step has succeeded. -/
theorem goto_up_order {σ : Type} (env : Env σ) (ms : List (M σ))
    (conn : Conn σ) (target : Nat) (hlt : conn.user_version < target)
    (hle : target ≤ ms.length) :
    ((goto env ms conn target).1.1 = none →
        (goto env ms conn target).2 =
          Event.txBegin ::
            (upEvents ms (List.range' conn.user_version
                (target - conn.user_version)) ++
              [Event.writeVersion target, Event.commit]) ∧
          ((goto env ms conn target).1.2).user_version = target % 2 ^ 32) ∧
      (Event.writeVersion target ∈ (goto env ms conn target).2 →
        ∃ dbf, (runSteps (fun i db => stepUp env (getM ms i) i db)
            (List.range' conn.user_version (target - conn.user_version))
            conn.db).1 = .ok dbf) ∧
      (∀ e, (goto env ms conn target).1.1 = some e →
        Event.commit ∉ (goto env ms conn target).2) ∧
      (∀ (m : M σ) (i : Nat) (db : σ),
        (env.execBatch m.up db = none →
            stepUp env m i db = (.error (.sqlError m.up), [.runBatch m.up])) ∧
          (∀ db1, env.execBatch m.up db = some db1 →
            m.foreign_key_check = true → env.fkViolation db1 = true →
            stepUp env m i db =
              (.error .fkViolation, [.runBatch m.up, .fkCheckRun])) ∧
          (∀ db1 hk, env.execBatch m.up db = some db1 →
            (m.foreign_key_check = true → env.fkViolation db1 = false) →
            m.up_hook = some hk → hk db1 = none →
            stepUp env m i db = (.error .hookFailed, stepUpEvents m i))) := by
  have hc : compare target conn.user_version = .gt := Nat.compare_eq_gt.mpr hlt
  have hgoto : goto env ms conn target =
      goto_up env ms conn conn.user_version target := by
    unfold goto
    simp [hc]
  have hall := runSteps_no_ctrl (fun i db => stepUp env (getM ms i) i db)
    (fun i db => stepUp_no_ctrl env (getM ms i) i db)
    (List.range' conn.user_version (target - conn.user_version)) conn.db
  rw [hgoto]
  unfold goto_up
  rcases hs : (runSteps (fun i db => stepUp env (getM ms i) i db)
      (List.range' conn.user_version (target - conn.user_version)) conn.db).1
    with e' | dbf
  · refine ⟨?_, ?_, ?_, fun m i db => stepUp_order_facts env m i db⟩
    · intro h
      simp [hs] at h
    · intro hmem
      simp [hs] at hmem
      exact absurd hmem (no_ctrl_not_mem _ hall _ rfl)
    · intro e he hmem
      simp [hs] at hmem
      exact absurd hmem (no_ctrl_not_mem _ hall _ rfl)
  · by_cases hv : env.setVersionOk target dbf
    · have hevs := runSteps_ok_events (fun i db => stepUp env (getM ms i) i db)
        (fun i => stepUpEvents (getM ms i) i)
        (fun i db db' h => stepUp_ok_events env (getM ms i) i db db' h)
        (List.range' conn.user_version (target - conn.user_version)) conn.db dbf hs
      refine ⟨?_, ?_, ?_, fun m i db => stepUp_order_facts env m i db⟩
      · intro _
        constructor
        · simp [hs, hv, hevs, upEvents]
        · simp [hs, hv]
      · intro _
        exact ⟨dbf, by simp [hs]⟩
      · intro e he
        simp [hs, hv] at he
    · refine ⟨?_, ?_, ?_, fun m i db => stepUp_order_facts env m i db⟩
      · intro h
        simp [hs, hv] at h
      · intro _
        exact ⟨dbf, by simp [hs]⟩
      · intro e he hmem
        simp [hs, hv] at hmem
        exact absurd hmem (no_ctrl_not_mem _ hall _ rfl)

/-- Witness for C6: a clean two-step forward run from a fresh store. -/
theorem goto_up_order_witness :
    ((goto envOk msTwo ⟨0, ([] : LogDb)⟩ 2).1.1 = none →
        (goto envOk msTwo ⟨0, ([] : LogDb)⟩ 2).2 =
          Event.txBegin ::
            (upEvents msTwo (List.range' 0 2) ++
              [Event.writeVersion 2, Event.commit]) ∧
          ((goto envOk msTwo ⟨0, ([] : LogDb)⟩ 2).1.2).user_version = 2 % 2 ^ 32) ∧
      (Event.writeVersion 2 ∈ (goto envOk msTwo ⟨0, ([] : LogDb)⟩ 2).2 →
        ∃ dbf, (runSteps (fun i db => stepUp envOk (getM msTwo i) i db)
            (List.range' 0 2) ([] : LogDb)).1 = .ok dbf) ∧
      (∀ e, (goto envOk msTwo ⟨0, ([] : LogDb)⟩ 2).1.1 = some e →
        Event.commit ∉ (goto envOk msTwo ⟨0, ([] : LogDb)⟩ 2).2) ∧
      (∀ (m : M LogDb) (i : Nat) (db : LogDb),
        (envOk.execBatch m.up db = none →
            stepUp envOk m i db = (.error (.sqlError m.up), [.runBatch m.up])) ∧
          (∀ db1, envOk.execBatch m.up db = some db1 →
            m.foreign_key_check = true → envOk.fkViolation db1 = true →
            stepUp envOk m i db =
              (.error .fkViolation, [.runBatch m.up, .fkCheckRun])) ∧
          (∀ db1 hk, envOk.execBatch m.up db = some db1 →
            (m.foreign_key_check = true → envOk.fkViolation db1 = false) →
            m.up_hook = some hk → hk db1 = none →
            stepUp envOk m i db = (.error .hookFailed, stepUpEvents m i))) :=
  goto_up_order envOk msTwo ⟨0, []⟩ 2 (by decide) (by decide)

/-- C7: a downward `goto` that passed the pre-flight check processes exactly
the steps with index in `[target, current)` in descending order — per step
the reverse hook (when present) runs first, then the reverse script as a
batch — and writes the target version and commits only after every step has
succeeded. -/
theorem goto_down_order {σ : Type} (env : Env σ) (ms : List (M σ))
    (conn : Conn σ) (target : Nat) (hlt : target < conn.user_version)
    (hle : conn.user_version ≤ ms.length)
    (hpre : findNoDown ms target conn.user_version = none) :
    ((goto env ms conn target).1.1 = none →
        (goto env ms conn target).2 =
          Event.txBegin ::
            (downEvents ms
                ((List.range' target (conn.user_version - target)).reverse) ++
              [Event.writeVersion target, Event.commit]) ∧
          ((goto env ms conn target).1.2).user_version = target % 2 ^ 32) ∧
      (Event.writeVersion target ∈ (goto env ms conn target).2 →
        ∃ dbf, (runSteps (fun i db => stepDown env (getM ms i) i db)
            ((List.range' target (conn.user_version - target)).reverse)
            conn.db).1 = .ok dbf) ∧
      (∀ e, (goto env ms conn target).1.1 = some e →
        Event.commit ∉ (goto env ms conn target).2) ∧
      (∀ (m : M σ) (i : Nat) (db : σ) (s : String) (hk : σ → Option σ),
        m.down = some s → m.down_hook = some hk → hk db = none →
        stepDown env m i db = (.error .hookFailed, [Event.runDownHook i])) := by
  have hc : compare target conn.user_version = .lt := Nat.compare_eq_lt.mpr hlt
  have hnf : ¬ ms.length < conn.user_version := by omega
  have hgoto : goto env ms conn target =
      goto_down env ms conn conn.user_version target := by
    unfold goto
    simp only [hc]
    rw [if_neg hnf]
  have hall := runSteps_no_ctrl (fun i db => stepDown env (getM ms i) i db)
    (fun i db => stepDown_no_ctrl env (getM ms i) i db)
    ((List.range' target (conn.user_version - target)).reverse) conn.db
  rw [hgoto]
  unfold goto_down
  rcases hs : (runSteps (fun i db => stepDown env (getM ms i) i db)
      ((List.range' target (conn.user_version - target)).reverse) conn.db).1
    with e' | dbf
  · refine ⟨?_, ?_, ?_,
      fun m i db s hk hd hh hr => stepDown_hook_first env m i db s hk hd hh hr⟩
    · intro h
      simp [hpre, hs] at h
    · intro hmem
      simp [hpre, hs] at hmem
      exact absurd hmem (no_ctrl_not_mem _ hall _ rfl)
    · intro e he hmem
      simp [hpre, hs] at hmem
      exact absurd hmem (no_ctrl_not_mem _ hall _ rfl)
  · by_cases hv : env.setVersionOk target dbf
    · have hevs := runSteps_ok_events (fun i db => stepDown env (getM ms i) i db)
        (fun i => stepDownEvents (getM ms i) i)
        (fun i db db' h => stepDown_ok_events env (getM ms i) i db db' h)
        ((List.range' target (conn.user_version - target)).reverse) conn.db dbf hs
      refine ⟨?_, ?_, ?_,
        fun m i db s hk hd hh hr => stepDown_hook_first env m i db s hk hd hh hr⟩
      · intro _
        constructor
        · simp [hpre, hs, hv, hevs, downEvents]
        · simp [hpre, hs, hv]
      · intro _
        exact ⟨dbf, by simp [hs]⟩
      · intro e he
        simp [hpre, hs, hv] at he
    · refine ⟨?_, ?_, ?_,
        fun m i db s hk hd hh hr => stepDown_hook_first env m i db s hk hd hh hr⟩
      · intro h
        simp [hpre, hs, hv] at h
      · intro _
        exact ⟨dbf, by simp [hs]⟩
      · intro e he hmem
        simp [hpre, hs, hv] at hmem
        exact absurd hmem (no_ctrl_not_mem _ hall _ rfl)

/-- Witness for C7: a clean two-step revert back to version 0. -/
theorem goto_down_order_witness :
    ((goto envOk msTwo ⟨2, ([] : LogDb)⟩ 0).1.1 = none →
        (goto envOk msTwo ⟨2, ([] : LogDb)⟩ 0).2 =
          Event.txBegin ::
            (downEvents msTwo ((List.range' 0 2).reverse) ++
              [Event.writeVersion 0, Event.commit]) ∧
          ((goto envOk msTwo ⟨2, ([] : LogDb)⟩ 0).1.2).user_version = 0 % 2 ^ 32) ∧
      (Event.writeVersion 0 ∈ (goto envOk msTwo ⟨2, ([] : LogDb)⟩ 0).2 →
        ∃ dbf, (runSteps (fun i db => stepDown envOk (getM msTwo i) i db)
            ((List.range' 0 2).reverse) ([] : LogDb)).1 = .ok dbf) ∧
      (∀ e, (goto envOk msTwo ⟨2, ([] : LogDb)⟩ 0).1.1 = some e →
        Event.commit ∉ (goto envOk msTwo ⟨2, ([] : LogDb)⟩ 0).2) ∧
      (∀ (m : M LogDb) (i : Nat) (db : LogDb) (s : String)
        (hk : LogDb → Option LogDb),
        m.down = some s → m.down_hook = some hk → hk db = none →
        stepDown envOk m i db = (.error .hookFailed, [Event.runDownHook i])) :=
  goto_down_order envOk msTwo ⟨2, []⟩ 0 (by decide) (by decide) rfl

end SqliteMigrator

